import Mathlib

/-!
Verification development for the sehawq.db storage engine.

The definitions below are a shallow embedding of the JavaScript source:

* `SehawqDB` and its operations embed the WAL-enabled engine class
  (`class SehawqDB` with `set`/`get`/`delete`/`clear`/`appendToWAL`/
  `updateCache`/`_startTTLSweep`).
* `Collection` embeds `src/core/Collection.js` (document model with schema
  validation over the same engine).
* The `Replication` definitions embed `src/core/Replication.js`
  (`_hookWriteEvents`, `applyOp`).
* The `IndexJs` namespace embeds the plain-object database of
  `src/index.js` (its `where` / `_getValueByPath` query surface).

Modelling conventions:

* JavaScript `Map`s are association lists in insertion order: `set` of an
  existing key updates the value in place (keeping its position), `set` of a
  fresh key appends, and `keys().next().value` is the head of the list.
* `undefined` is `Option.none`; stored values are `JsVal` trees.
* Asynchronous file I/O that can reject (the WAL file-handle `write`) is
  modelled by an explicit boolean oracle per call: `true` means the write
  rejects.  A thrown JS exception is `Except.error`; the state component of
  each operation's result is the in-memory state at the moment the exception
  propagates (mutations performed before the `await` are kept, exactly as in
  the event-loop semantics of the source).
* Event emission, watcher callbacks, the metrics counters and the collection
  instance cache are omitted: no claim observes them and they do not feed
  back into the store, cache, TTL or WAL state.
-/

namespace Sehawq

/-- JSON-serialisable JavaScript values.  `undefined` is represented by
`Option.none` at use sites, never stored inside a `JsVal`.  Object identity
(reference equality) is not representable in a value tree; the development
notes at each comparison how that is handled. -/
inductive JsVal where
  | null
  | bool (b : Bool)
  | num (n : Int)
  | str (s : String)
  | arr (elems : List JsVal)
  | obj (fields : List (String × JsVal))

/-- JS `===` restricted to the cases the source exercises: scalars compare
structurally; comparisons involving arrays or objects are reference
comparisons in JS, which a value model cannot express, and are modelled as
`false` (two independently-read references are distinct). -/
def jsEq : JsVal → JsVal → Bool
  | .null, .null => true
  | .bool a, .bool b => a == b
  | .num a, .num b => a == b
  | .str a, .str b => a == b
  | _, _ => false

/-- JS truthiness (`NaN` is not modelled; `JsVal.num` is an integer). -/
def truthy : JsVal → Bool
  | .null => false
  | .bool b => b
  | .num n => n != 0
  | .str s => s.data != []
  | .arr _ => true
  | .obj _ => true

/-- `Map.prototype.get` / plain-object property read: first binding wins. -/
def mapGet {α : Type} : List (String × α) → String → Option α
  | [], _ => none
  | (k0, v0) :: rest, k => if k0 = k then some v0 else mapGet rest k

/-- `Map.prototype.has`. -/
def mapHas {α : Type} (m : List (String × α)) (k : String) : Bool :=
  (mapGet m k).isSome

/-- `Map.prototype.set`: an existing key keeps its position in iteration
order, a fresh key is appended at the end. -/
def mapSet {α : Type} : List (String × α) → String → α → List (String × α)
  | [], k, v => [(k, v)]
  | (k0, v0) :: rest, k, v =>
      if k0 = k then (k, v) :: rest else (k0, v0) :: mapSet rest k v

/-- `Map.prototype.delete` (keys are unique in every map the engine builds,
so removing every binding of `k` coincides with removing the one binding). -/
def mapDelete {α : Type} : List (String × α) → String → List (String × α)
  | [], _ => []
  | (k0, v0) :: rest, k =>
      if k0 = k then mapDelete rest k else (k0, v0) :: mapDelete rest k

/-- Records of the append-only WAL file (fields `op`, `k`, `v`, `exp` with
`op` one of put, del, clr, ttl). -/
inductive WalEntry where
  | put (k : String) (v : JsVal)
  | del (k : String)
  | clr
  | ttl (k : String) (exp : Int)

/-- Errors surfaced by the engine: `notReady` is the `'DB not ready'` throw,
`durability` stands for the rejection of the WAL file-handle `write`. -/
inductive DBErr where
  | notReady
  | durability

/-- State of the WAL-enabled `SehawqDB` class.  `cacheEnabled`/`cacheLimit`
are `conf.cache`/`conf.cacheLimit`; `walHandle` is whether `_walHandle` is
open; `wal` is the sequence of records appended so far. -/
structure SehawqDB where
  store : List (String × JsVal)
  cache : List (String × JsVal)
  idx : List (String × JsVal)
  ttlTable : List (String × Int)
  ready : Bool
  walHandle : Bool
  wal : List WalEntry
  cacheEnabled : Bool
  cacheLimit : Nat

/-- `appendToWAL(entry)`: silently a no-op without an open handle; otherwise
the file write either appends one record or rejects (`fails = true`). -/
def SehawqDB.appendToWAL (s : SehawqDB) (e : WalEntry) (fails : Bool) :
    Except DBErr SehawqDB :=
  if !s.walHandle then .ok s
  else if fails then .error .durability
  else .ok { s with wal := s.wal ++ [e] }

/-- The eviction inside `updateCache`: `keys().next().value` is the first
key in iteration order (on an empty map it is `undefined` and the `delete`
is a no-op). -/
def evictHead (cache : List (String × JsVal)) : List (String × JsVal) :=
  match cache with
  | [] => cache
  | (hk, _) :: _ => mapDelete cache hk

/-- `updateCache(k, v)`: evict the first key in iteration order when the
cache is at (or beyond) `cacheLimit`, then write the entry through. -/
def updateCache (cache : List (String × JsVal)) (limit : Nat) (k : String)
    (v : JsVal) : List (String × JsVal) :=
  mapSet (if limit ≤ cache.length then evictHead cache else cache) k v

/-- `set(k, v, opts)`.  The in-memory map and cache are updated first, then
the `put` record is appended; a numeric truthy `opts.ttl` (seconds) then
records an absolute expiry and appends a `ttl` record.  `now` is
`Date.now()`, `wfPut`/`wfTtl` are the rejection oracles of the two appends. -/
def SehawqDB.set (s : SehawqDB) (k : String) (v : JsVal) (ttlOpt : Option Int)
    (now : Int) (wfPut wfTtl : Bool) : Except DBErr Unit × SehawqDB :=
  if !s.ready then (.error .notReady, s)
  else
    let s1 := { s with store := mapSet s.store k v }
    let s2 :=
      if s1.cacheEnabled then
        { s1 with cache := updateCache s1.cache s1.cacheLimit k v }
      else s1
    match s2.appendToWAL (.put k v) wfPut with
    | .error e => (.error e, s2)
    | .ok s3 =>
      match ttlOpt with
      | some t =>
        if t != 0 then
          let exp := now + t * 1000
          let s4 := { s3 with ttlTable := mapSet s3.ttlTable k exp }
          match s4.appendToWAL (.ttl k exp) wfTtl with
          | .error e => (.error e, s4)
          | .ok s5 => (.ok (), s5)
        else (.ok (), s3)
      | none => (.ok (), s3)

/-- `get(k)`: cache hit returns the cached value unchanged; a miss reads the
map and (when caching is on and the value is defined) writes the entry into
the cache. -/
def SehawqDB.get (s : SehawqDB) (k : String) :
    Except DBErr (Option JsVal) × SehawqDB :=
  if !s.ready then (.error .notReady, s)
  else if s.cacheEnabled && mapHas s.cache k then (.ok (mapGet s.cache k), s)
  else
    match mapGet s.store k with
    | some v =>
      if s.cacheEnabled then
        (.ok (some v), { s with cache := updateCache s.cache s.cacheLimit k v })
      else (.ok (some v), s)
    | none => (.ok none, s)

/-- `delete(k)`: no readiness check; absent key returns `false`; otherwise
map, cache and TTL entries are removed before the `del` record is appended. -/
def SehawqDB.delete (s : SehawqDB) (k : String) (wf : Bool) :
    Except DBErr Bool × SehawqDB :=
  if !mapHas s.store k then (.ok false, s)
  else
    let s1 := { s with
      store := mapDelete s.store k
      cache := mapDelete s.cache k
      ttlTable := mapDelete s.ttlTable k }
    match s1.appendToWAL (.del k) wf with
    | .error e => (.error e, s1)
    | .ok s2 => (.ok true, s2)

/-- `clear()`: resets the store map, the cache and the index map, then
appends a `clr` record.  The TTL table is not touched by the source. -/
def SehawqDB.clear (s : SehawqDB) (wf : Bool) : Except DBErr Unit × SehawqDB :=
  let s1 := { s with store := [], cache := [], idx := [] }
  match s1.appendToWAL .clr wf with
  | .error e => (.error e, s1)
  | .ok s2 => (.ok (), s2)

/-- One iteration of the TTL sweep loop body: an expired entry is removed
from the TTL table and the key deleted through the full `delete` path (the
returned promise's rejection is swallowed by `.catch(() => {})`). -/
def sweepStep (now : Int) (wf : Bool) (s : SehawqDB) (e : String × Int) :
    SehawqDB :=
  if now ≥ e.2 then
    let s1 := { s with ttlTable := mapDelete s.ttlTable e.1 }
    (s1.delete e.1 wf).2
  else s

/-- The TTL sweep (`_startTTLSweep` interval body): scan the TTL table and
delete every key whose expiry has passed. -/
def SehawqDB.ttlSweep (s : SehawqDB) (now : Int) (wf : Bool) : SehawqDB :=
  s.ttlTable.foldl (sweepStep now wf) s

/-- The constructor state: empty maps, not ready, no WAL handle
(`conf.cache = true`, `conf.cacheLimit = 1000` are the defaults). -/
def SehawqDB.preInit : SehawqDB :=
  { store := [], cache := [], idx := [], ttlTable := [], ready := false
    walHandle := false, wal := [], cacheEnabled := true, cacheLimit := 1000 }

/-- A freshly initialised engine (after `init()` on an empty directory):
ready, WAL handle open, everything empty. -/
def SehawqDB.freshReady : SehawqDB :=
  { store := [], cache := [], idx := [], ttlTable := [], ready := true
    walHandle := true, wal := [], cacheEnabled := true, cacheLimit := 1000 }

/-- The cache-coherence invariant of claim C2: every key present in the
cache maps to the same value in the store map. -/
def CacheOK (s : SehawqDB) : Prop :=
  ∀ k v, mapGet s.cache k = some v → mapGet s.store k = some v

/-- The inductive invariant used to establish C2: cache coherence, plus the
operational fact that with caching disabled the cache stays empty (nothing
ever writes to it). -/
def DBInv (s : SehawqDB) : Prop :=
  CacheOK s ∧ (s.cacheEnabled = false → s.cache = [])

/-- The operations of the engine surface that mutate or read state, each
carrying its oracle inputs (`Date.now()` readings and WAL-write rejection
flags). -/
inductive DBOp where
  | setOp (k : String) (v : JsVal) (ttlOpt : Option Int) (now : Int)
      (wfPut wfTtl : Bool)
  | getOp (k : String)
  | delOp (k : String) (wf : Bool)
  | clearOp (wf : Bool)
  | sweepOp (now : Int) (wf : Bool)

/-- Run one operation, keeping only the state (results discarded). -/
def SehawqDB.applyDBOp (s : SehawqDB) : DBOp → SehawqDB
  | .setOp k v t now w1 w2 => (s.set k v t now w1 w2).2
  | .getOp k => (s.get k).2
  | .delOp k w => (s.delete k w).2
  | .clearOp w => (s.clear w).2
  | .sweepOp now w => s.ttlSweep now w

/-- Run a sequence of operations. -/
def SehawqDB.applyDBOps (s : SehawqDB) (ops : List DBOp) : SehawqDB :=
  ops.foldl SehawqDB.applyDBOp s

/-- A ready engine holding one key with a live TTL entry (used to exercise
claim C5). -/
def exC5 : SehawqDB :=
  { SehawqDB.freshReady with
    store := [(("k"), .num 1)], cache := [(("k"), .num 1)]
    ttlTable := [(("k"), 99)] }

/-- A ready engine holding one key with a TTL entry (used to exercise
claim C6). -/
def exC6 : SehawqDB :=
  { SehawqDB.freshReady with
    store := [(("k"), .num 1)], ttlTable := [(("k"), 5)] }

/-- A ready engine whose cache holds at most two entries (used to exercise
the eviction policy of claim C7). -/
def cap2 : SehawqDB := { SehawqDB.freshReady with cacheLimit := 2 }

/-- The state after `set a;set b;get a;set c` on `cap2`: the `get` is a
cache hit on `a`, and the final `set` runs `updateCache` at capacity. -/
def exC7 : SehawqDB :=
  ((((cap2.set ("a") (.num 1) none 0 false false).2.set
      ("b") (.num 2) none 0 false false).2.get ("a")).2.set
      ("c") (.num 3) none 0 false false).2

/-- A mixed operation sequence used as the concrete input of the C2
witness. -/
def exC2ops : List DBOp :=
  [ .setOp ("a") (.num 1) none 0 false false
  , .setOp ("b") (.str ("x")) (some 7) 0 false false
  , .getOp ("a")
  , .setOp ("a") (.num 2) none 5 true false
  , .delOp ("b") false
  , .sweepOp 99999 false
  , .clearOp false
  , .setOp ("c") (.bool true) none 9 false false ]

/-- `String.prototype.startsWith`, over the character data. -/
def jsStartsWith (s pre : String) : Bool :=
  List.isPrefixOf pre.data s.data

/-- `String.prototype.endsWith`, over the character data. -/
def jsEndsWith (s suf : String) : Bool :=
  List.isPrefixOf suf.data.reverse s.data.reverse

/-- Contiguous-sublist test, used for `String.prototype.includes`. -/
def hasSubList (needle : List Char) : List Char → Bool
  | [] => List.isPrefixOf needle []
  | c :: rest => List.isPrefixOf needle (c :: rest) || hasSubList needle rest

/-- `String.prototype.includes`. -/
def strContainsSub (s t : String) : Bool :=
  hasSubList t.data s.data

/-- JS `===` where the left side may be `undefined` (`none`). -/
def jsEqOpt : Option JsVal → Option JsVal → Bool
  | none, none => true
  | some a, some b => jsEq a b
  | _, _ => false

/-- JS `>` with a possibly-undefined left operand: numbers and strings
compare in the usual order; any comparison involving `undefined` is false
(NaN semantics); cross-type coercion corners are not modelled and yield
`false`. -/
def jsGtB : Option JsVal → JsVal → Bool
  | some (.num a), .num b => decide (b < a)
  | some (.str a), .str b => decide (b < a)
  | _, _ => false

/-- JS `<` (same conventions as `jsGtB`). -/
def jsLtB : Option JsVal → JsVal → Bool
  | some (.num a), .num b => decide (a < b)
  | some (.str a), .str b => decide (a < b)
  | _, _ => false

/-- JS `>=` (same conventions as `jsGtB`). -/
def jsGeB : Option JsVal → JsVal → Bool
  | some (.num a), .num b => decide (b ≤ a)
  | some (.str a), .str b => decide (b ≤ a)
  | _, _ => false

/-- JS `<=` (same conventions as `jsGtB`). -/
def jsLeB : Option JsVal → JsVal → Bool
  | some (.num a), .num b => decide (a ≤ b)
  | some (.str a), .str b => decide (a ≤ b)
  | _, _ => false

/-- The `type` strings accepted by collection schema rules. -/
inductive JsTy where
  | string
  | number
  | boolean
  | array
  | object

/-- One field's schema rule (`Collection.schema`).  The `pattern` rule
(regex matching) is not modelled: no claim exercises it and a regex engine
is outside the embedding's scope. -/
structure CollRule where
  required : Bool := false
  type : Option JsTy := none
  min : Option Int := none
  max : Option Int := none
  enum : Option (List JsVal) := none

/-- The validation errors thrown by `Collection._validate`, by rule kind and
field. -/
inductive ValErr where
  | missing (f : String)
  | wrongType (f : String)
  | tooSmall (f : String)
  | tooBig (f : String)
  | notInEnum (f : String)

/-- `val === undefined || val === null || val === ''` — the `required`
check. -/
def requiredViolated : Option JsVal → Bool
  | none => true
  | some .null => true
  | some (.str s) => s.data == []
  | some _ => false

/-- `val == null` (loose equality): only `undefined` and `null`. -/
def looseNull : Option JsVal → Bool
  | none => true
  | some .null => true
  | some _ => false

/-- The `typeof`/`Array.isArray` type checks of `_validate` (`null` never
reaches this point, the loose-null check skips it). -/
def typeViolated : JsTy → JsVal → Bool
  | .string, .str _ => false
  | .number, .num _ => false
  | .boolean, .bool _ => false
  | .array, .arr _ => false
  | .object, .obj _ => false
  | _, _ => true

/-- The quantity compared against `min`/`max`: the length for strings, the
value itself for numbers.  Other types flow through JS `<` coercion in the
source (never a thrown error for arrays/objects whose coercion is NaN);
these corners are not modelled and never violate the bound. -/
def minMaxMetric : JsVal → Option Int
  | .str s => some (Int.ofNat s.data.length)
  | .num n => some n
  | _ => none

/-- One rule check of `_validate` (throws the first violated rule, in the
order required → type → min → max → enum). -/
def checkRule (field : String) (rule : CollRule)
    (doc : List (String × JsVal)) : Option ValErr :=
  let val := mapGet doc field
  if rule.required && requiredViolated val then some (.missing field)
  else
    match val with
    | none => none
    | some .null => none
    | some v =>
      if (match rule.type with
          | some t => typeViolated t v
          | none => false) then some (.wrongType field)
      else if (match rule.min, minMaxMetric v with
               | some m, some x => decide (x < m)
               | _, _ => false) then some (.tooSmall field)
      else if (match rule.max, minMaxMetric v with
               | some m, some x => decide (m < x)
               | _, _ => false) then some (.tooBig field)
      else if (match rule.enum with
               | some es => !(es.any (fun e => jsEq e v))
               | none => false) then some (.notInEnum field)
      else none

/-- `_validate(doc)`: check every rule in insertion order, throwing at the
first violation. -/
def validateDoc : List (String × CollRule) → List (String × JsVal) →
    Option ValErr
  | [], _ => none
  | (f, r) :: rest, doc =>
    match checkRule f r doc with
    | some e => some e
    | none => validateDoc rest doc

/-- `doc[field]` for query matching; collection documents are objects
(string/array index properties are not modelled here). -/
def docField (doc : JsVal) (field : String) : Option JsVal :=
  match doc with
  | .obj l => mapGet l field
  | _ => none

/-- One operator check of `Collection._matches`: the loop returns false on
the first failing known operator and ignores unknown keys.  A non-array
`$in` target throws a TypeError in the source; that corner is unexercised
and modelled as no match. -/
def opPasses (op : String) (val : Option JsVal) (target : JsVal) : Bool :=
  if op = ("$gt") then jsGtB val target
  else if op = ("$gte") then jsGeB val target
  else if op = ("$lt") then jsLtB val target
  else if op = ("$lte") then jsLeB val target
  else if op = ("$ne") then !(jsEqOpt val (some target))
  else if op = ("$in") then
    (match target with
     | .arr es =>
       (match val with
        | some x => es.any (fun e => jsEq e x)
        | none => false)
     | _ => false)
  else true

/-- `Collection._matches(doc, query)`: an object condition (never `null`,
which is falsy, and never an array) is an operator map; any other condition
is strict equality. -/
def matchesVal (doc : JsVal) (query : List (String × JsVal)) : Bool :=
  query.all fun fc =>
    match fc.2 with
    | .obj ops => ops.all fun ot => opPasses ot.1 (docField doc fc.1) ot.2
    | cond => jsEqOpt (docField doc fc.1) (some cond)

/-- The first store entry (in insertion order) inside the collection
namespace whose document matches the query — `findOne` over
`_getAll()` (which walks `db.all()` in map insertion order; namespace keys
contain `:` and are never array-index-like, so object key ordering preserves
insertion order). -/
def firstMatch (pre : String) (query : List (String × JsVal)) :
    List (String × JsVal) → Option (String × JsVal)
  | [] => none
  | (k, v) :: rest =>
    if jsStartsWith k pre && matchesVal v query then some (k, v)
    else firstMatch pre query rest

/-- `Object.assign(target, source)`: source fields written left to right. -/
def objAssign (target source : List (String × JsVal)) :
    List (String × JsVal) :=
  source.foldl (fun acc kv => mapSet acc kv.1 kv.2) target

/-- In-place mutation of the object stored at `k` (`Object.assign` on a
reference obtained from `db.all()`): every alias — the store map binding and
any cache binding — observes the new contents; nothing else changes and no
WAL record is written. -/
def SehawqDB.aliasWrite (s : SehawqDB) (k : String) (v : JsVal) : SehawqDB :=
  { s with
    store := if mapHas s.store k then mapSet s.store k v else s.store
    cache := if mapHas s.cache k then mapSet s.cache k v else s.cache }

/-- Errors surfaced by collection operations. -/
inductive CollErr where
  | validation (e : ValErr)
  | dbErr (e : DBErr)

/-- A collection bound to its engine: `name`, its `_rules` (none until
`schema` is called) and the module-level `_counter` used by `_genId`. -/
structure CollectionDB where
  db : SehawqDB
  name : String
  rules : Option (List (String × CollRule))
  counter : Nat

/-- The write part of `insert` after validation passed: `_genId` assigns
`prefix + counter++`, `doc._id = id` mutates the document, then `db.set`
stores it (its rejection propagates). -/
def insertGo (c : CollectionDB) (doc : List (String × JsVal)) (wf : Bool) :
    Except CollErr String × CollectionDB :=
  let id := c.name ++ (":") ++ Nat.repr c.counter
  let c1 := { c with counter := c.counter + 1 }
  let doc1 := mapSet doc ("_id") (.str id)
  match c1.db.set id (.obj doc1) none 0 wf false with
  | (.error e, db1) => (.error (.dbErr e), { c1 with db := db1 })
  | (.ok _, db1) => (.ok id, { c1 with db := db1 })

/-- `Collection.insert(doc)`: validation (when rules are set) runs before id
generation and before any store write; a violation throws and leaves the
whole state untouched. -/
def CollectionDB.insert (c : CollectionDB) (doc : List (String × JsVal))
    (wf : Bool) : Except CollErr String × CollectionDB :=
  match c.rules with
  | some rules =>
    (match validateDoc rules doc with
     | some e => (.error (.validation e), c)
     | none => insertGo c doc wf)
  | none => insertGo c doc wf

/-- The `$set`/whole-document merge payload of `update(query, changes)`:
`changes.$set` is used when it is a truthy object, otherwise the whole
`changes` object is merged (a primitive truthy `$set` would be boxed by
`Object.assign` and is not modelled). -/
def updatePayload (changes : List (String × JsVal)) :
    List (String × JsVal) :=
  match mapGet changes ("$set") with
  | some (.obj l) => l
  | _ => changes

/-- The write part of `update` after validation passed: `db.set(doc._id,
doc)`; for collection documents `_id` equals the store key (a non-string
`_id` could only arise from an update overwriting it and is not modelled). -/
def updateGo (c : CollectionDB) (k : String)
    (merged : List (String × JsVal)) (wf : Bool) :
    Except CollErr Bool × CollectionDB :=
  let id :=
    match mapGet merged ("_id") with
    | some (.str s) => s
    | _ => k
  match c.db.set id (.obj merged) none 0 wf false with
  | (.error e, db1) => (.error (.dbErr e), { c with db := db1 })
  | (.ok _, db1) => (.ok true, { c with db := db1 })

/-- `Collection.update(query, changes)`: `findOne`, then `Object.assign`
merges the changes INTO THE STORED DOCUMENT OBJECT (the value held by the
store map — `db.all()` returns the stored references), and only then does
validation run; a violation aborts before `db.set`, but the in-place
mutation stays visible.  Documents found under the namespace are objects
(see `insert`); other values are not modelled. -/
def CollectionDB.update (c : CollectionDB) (query : List (String × JsVal))
    (changes : List (String × JsVal)) (wf : Bool) :
    Except CollErr Bool × CollectionDB :=
  match firstMatch (c.name ++ (":")) query c.db.store with
  | none => (.ok false, c)
  | some (k, doc) =>
    match doc with
    | .obj docFields =>
      let merged := objAssign docFields (updatePayload changes)
      let c1 := { c with db := c.db.aliasWrite k (.obj merged) }
      (match c1.rules with
       | some rules =>
         (match validateDoc rules merged with
          | some e => (.error (.validation e), c1)
          | none => updateGo c1 k merged wf)
       | none => updateGo c1 k merged wf)
    | _ => (.ok false, c)

/-- A concrete collection over a ready engine: one stored user document and
a schema requiring `name` to be a string of length at least 2. -/
def exC3 : CollectionDB :=
  { db := { SehawqDB.freshReady with
      store := [(("users:0"),
        .obj [(("_id"), .str ("users:0")), (("name"), .str ("Ali"))])] }
    name := ("users")
    rules := some [(("name"),
      { required := true, type := some .string, min := some 2 })]
    counter := 1 }

/-- Replication roles. -/
inductive RepRole where
  | primary
  | replica

/-- The wire format of replicated mutations
(`{op, key, value?, ts, nodeId}`). -/
inductive RepOp where
  | set (key : String) (value : JsVal) (ts : Int) (nodeId : String)
  | del (key : String) (ts : Int) (nodeId : String)

/-- The `set`-event listener installed by `_hookWriteEvents`: internal keys
(leading `_`) are skipped, every other write is broadcast. Returns the
broadcast op, `none` when skipped. -/
def hookSetEvent (key : String) (value : JsVal) (now : Int)
    (nodeId : String) : Option RepOp :=
  if jsStartsWith key ("_") then none
  else some (.set key value now nodeId)

/-- The `delete`-event listener installed by `_hookWriteEvents`. -/
def hookDeleteEvent (key : String) (now : Int) (nodeId : String) :
    Option RepOp :=
  if jsStartsWith key ("_") then none
  else some (.del key now nodeId)

/-- One entry of the `_conflicts` history. -/
structure ConflictEntry where
  key : String
  strategy : String
  localVal : JsVal
  remoteVal : JsVal
  resolvedAt : Int

/-- State of the `Replication` controller on a node: its engine, role, the
lazily-created `_writeTimes` map, the `_conflicts` history, and the optional
`onConflict` merge function. -/
structure Replication where
  db : SehawqDB
  role : RepRole
  writeTimes : List (String × Int)
  conflicts : List ConflictEntry
  onConflict : Option (JsVal → JsVal → RepOp → JsVal)

/-- Errors surfaced by `applyOp`. -/
inductive RepErr where
  | onlyReplica
  | dbErr (e : DBErr)

/-- `_lastWrite(key)`: 0 when the map is absent or the key untracked. -/
def Replication.lastWrite (r : Replication) (key : String) : Int :=
  match mapGet r.writeTimes key with
  | some t => t
  | none => 0

/-- `_trackWrite(key)`. -/
def Replication.trackWrite (r : Replication) (key : String) (now : Int) :
    Replication :=
  { r with writeTimes := mapSet r.writeTimes key now }

/-- The JSON shape of a conflict entry as persisted under `_conflicts`. -/
def conflictToJs (e : ConflictEntry) : JsVal :=
  .obj [ (("key"), .str e.key), (("strategy"), .str e.strategy)
       , (("localVal"), e.localVal), (("remoteVal"), e.remoteVal)
       , (("resolvedAt"), .num e.resolvedAt) ]

/-- `_logConflict`: push to the in-memory history and persist the trimmed
last-100 list under the reserved `_conflicts` key via a fire-and-forget
`db.set` (the promise is not awaited, so its rejection does not propagate
to `applyOp`). -/
def Replication.logConflict (r : Replication) (key : String)
    (localVal remoteVal : JsVal) (strategy : String) (now : Int)
    (wf : Bool) : Replication :=
  let entry : ConflictEntry :=
    { key := key, strategy := strategy, localVal := localVal
      remoteVal := remoteVal, resolvedAt := now }
  let r1 := { r with conflicts := r.conflicts ++ [entry] }
  match r1.db.get ("_conflicts") with
  | (.error _, db1) => { r1 with db := db1 }
  | (.ok stored, db1) =>
    let prev :=
      match stored with
      | some (.arr l) => l
      | _ => []
    let next := prev ++ [conflictToJs entry]
    let trimmed :=
      if 100 < next.length then next.drop (next.length - 100) else next
    { r1 with db := (db1.set ("_conflicts") (.arr trimmed) none now wf
        false).2 }

/-- The no-conflict path of `applyOp` on a `set` op: apply through the
store pipeline, then `_trackWrite`. -/
def applySetPlain (r : Replication) (key : String) (value : JsVal)
    (now : Int) (wf : Bool) : Except RepErr Unit × Replication :=
  match r.db.set key value none now wf false with
  | (.error e, db2) => (.error (.dbErr e), { r with db := db2 })
  | (.ok _, db2) => (.ok (), ({ r with db := db2 }).trackWrite key now)

/-- `Replication.applyOp(op)`: replicas only.  On `set`, a conflict is
declared when a local value exists, the op carries a truthy `ts`, and the
local last-write time is newer; resolution is the custom `onConflict` merge
or last-writer-wins with the remote value, each logged.  On `del`, delete
and track.  No check whatsoever is made for internal (`_`-prefixed) keys. -/
def Replication.applyOp (r : Replication) (op : RepOp) (now : Int)
    (wf : Bool) : Except RepErr Unit × Replication :=
  match r.role with
  | .primary => (.error .onlyReplica, r)
  | .replica =>
    match op with
    | .set key value ts _nodeId =>
      match r.db.get key with
      | (.error e, db1) => (.error (.dbErr e), { r with db := db1 })
      | (.ok localVal, db1) =>
        let r1 := { r with db := db1 }
        match localVal with
        | some lv =>
          if (ts != 0) && decide (ts < r1.lastWrite key) then
            match r1.onConflict with
            | some f =>
              (match r1.db.set key (f lv value op) none now wf false with
               | (.error e, db2) => (.error (.dbErr e), { r1 with db := db2 })
               | (.ok _, db2) =>
                 let r2 := Replication.logConflict { r1 with db := db2 }
                   key lv value ("custom_merge") now wf
                 (.ok (), r2.trackWrite key now))
            | none =>
              (match r1.db.set key value none now wf false with
               | (.error e, db2) => (.error (.dbErr e), { r1 with db := db2 })
               | (.ok _, db2) =>
                 let r2 := Replication.logConflict { r1 with db := db2 }
                   key lv value ("lww_remote") now wf
                 (.ok (), r2.trackWrite key now))
          else applySetPlain r1 key value now wf
        | none => applySetPlain r1 key value now wf
    | .del key _ts _nodeId =>
      match r.db.delete key wf with
      | (.error e, db1) => (.error (.dbErr e), { r with db := db1 })
      | (.ok _, db1) => (.ok (), ({ r with db := db1 }).trackWrite key now)

/-- A replica over a fresh ready engine. -/
def exC4 : Replication :=
  { db := SehawqDB.freshReady, role := .replica, writeTimes := []
    conflicts := [], onConflict := none }

namespace IndexJs

/-- `pathStr.split(".")` — split on every dot, keeping empty segments. -/
def splitDot : List Char → List Char → List String
  | [], acc => [String.mk acc.reverse]
  | c :: rest, acc =>
    if c = ('.') then String.mk acc.reverse :: splitDot rest []
    else splitDot rest (c :: acc)

/-- The segment list of a dotted path. -/
def splitSegs (s : String) : List String :=
  splitDot s.data []

/-- A canonical array-index string (`"01"`-style non-canonical forms are not
modelled). -/
def toIndex (s : String) : Option Nat :=
  if !s.data.isEmpty && s.data.all (fun c => c.isDigit) then
    some (s.data.foldl (fun n c => n * 10 + (c.toNat - 48)) 0)
  else none

/-- `Object.prototype.hasOwnProperty.call(result, key)` combined with the
read `result[key]`: object own fields; array indices and `length`; string
indices and `length`; primitives own nothing. -/
def ownProp (v : JsVal) (seg : String) : Option JsVal :=
  match v with
  | .obj fields => mapGet fields seg
  | .arr es =>
    if seg = ("length") then some (.num (Int.ofNat es.length))
    else
      (match toIndex seg with
       | some i => es.get? i
       | none => none)
  | .str s =>
    if seg = ("length") then some (.num (Int.ofNat s.data.length))
    else
      (match toIndex seg with
       | some i =>
         (match s.data.get? i with
          | some ch => some (.str (String.mk [ch]))
          | none => none)
       | none => none)
  | _ => none

/-- The loop body of `_getValueByPath`: `result && hasOwnProperty(...)`
walks one segment or returns `undefined`. -/
def walkPath : List String → JsVal → Option JsVal
  | [], v => some v
  | seg :: rest, v =>
    if truthy v then
      match ownProp v seg with
      | some v1 => walkPath rest v1
      | none => none
    else none

/-- `_getValueByPath(obj, pathStr)` of `src/index.js`. -/
def getValueByPath (obj : JsVal) (pathStr : String) : Option JsVal :=
  walkPath (splitSegs pathStr) obj

/-- The per-item filter compiled by `where(field, operator, value)` of
`src/index.js`, evaluated at the projected field value (possibly
`undefined`): the operator switch, with the default branch returning
false. -/
def whereMatch (fieldValue : Option JsVal) (operator : String)
    (value : JsVal) : Bool :=
  if operator = ("=") then jsEqOpt fieldValue (some value)
  else if operator = ("==") then jsEqOpt fieldValue (some value)
  else if operator = ("!=") then !(jsEqOpt fieldValue (some value))
  else if operator = (">") then jsGtB fieldValue value
  else if operator = ("<") then jsLtB fieldValue value
  else if operator = (">=") then jsGeB fieldValue value
  else if operator = ("<=") then jsLeB fieldValue value
  else if operator = ("in") then
    (match value with
     | .arr es =>
       (match fieldValue with
        | some x => es.any (fun e => jsEq e x)
        | none => false)
     | _ => false)
  else if operator = ("contains") then
    (match fieldValue, value with
     | some (.str s), .str t => strContainsSub s t
     | _, _ => false)
  else if operator = ("startsWith") then
    (match fieldValue, value with
     | some (.str s), .str t => jsStartsWith s t
     | _, _ => false)
  else if operator = ("endsWith") then
    (match fieldValue, value with
     | some (.str s), .str t => jsEndsWith s t
     | _, _ => false)
  else false

/-- `where(field, operator, value)`: `find` with the compiled filter — the
result pipeline's backing array, one `(key, value)` entry per matching item
of `this.data` in object-key insertion order. -/
def whereResults (data : List (String × JsVal)) (field : String)
    (operator : String) (value : JsVal) : List (String × JsVal) :=
  data.filter fun kv => whereMatch (getValueByPath kv.2 field) operator value

/-- A one-entry store whose document does not define the field `f`. -/
def exC9data : List (String × JsVal) :=
  [(("a"), .obj [(("g"), .num 1)])]

end IndexJs

theorem mapGet_mapSet {α : Type} (m : List (String × α)) (k k' : String) (v : α) :
    mapGet (mapSet m k v) k' = if k = k' then some v else mapGet m k' := by
  induction m with
  | nil => simp [mapSet, mapGet]
  | cons hd tl ih =>
    obtain ⟨k0, v0⟩ := hd
    by_cases h0 : k0 = k
    · subst h0
      by_cases h1 : k0 = k'
      · subst h1; simp [mapSet, mapGet]
      · simp [mapSet, mapGet, h1]
    · by_cases h1 : k0 = k'
      · subst h1
        have : ¬ k = k0 := fun h => h0 h.symm
        simp [mapSet, mapGet, h0, this]
      · simp [mapSet, mapGet, h0, h1, ih]

theorem mapGet_mapDelete {α : Type} (m : List (String × α)) (k k' : String) :
    mapGet (mapDelete m k) k' = if k = k' then none else mapGet m k' := by
  induction m with
  | nil => simp [mapDelete, mapGet]
  | cons hd tl ih =>
    obtain ⟨k0, v0⟩ := hd
    by_cases h0 : k0 = k
    · subst h0
      by_cases h1 : k0 = k'
      · subst h1; simp [mapDelete, mapGet, ih]
      · simp [mapDelete, mapGet, h1, ih]
    · by_cases h1 : k0 = k'
      · subst h1
        have : ¬ k = k0 := fun h => h0 h.symm
        simp [mapDelete, mapGet, h0, this]
      · simp [mapDelete, mapGet, h0, h1, ih]

theorem mapGet_eq_some_mem {α : Type} {m : List (String × α)} {k : String} {v : α}
    (h : mapGet m k = some v) : (k, v) ∈ m := by
  induction m with
  | nil => simp [mapGet] at h
  | cons hd tl ih =>
    obtain ⟨k0, v0⟩ := hd
    by_cases h0 : k0 = k
    · subst h0
      simp [mapGet] at h
      simp [h]
    · simp [mapGet, h0] at h
      exact List.mem_cons_of_mem _ (ih h)

theorem mem_mapSet_self {α : Type} (m : List (String × α)) (k : String) (v : α) :
    (k, v) ∈ mapSet m k v := by
  induction m with
  | nil => simp [mapSet]
  | cons hd tl ih =>
    obtain ⟨k0, v0⟩ := hd
    by_cases h0 : k0 = k
    · simp [mapSet, h0]
    · simp only [mapSet, if_neg h0]
      exact List.mem_cons_of_mem _ ih

theorem appendToWAL_ok_fields {s s' : SehawqDB} {e : WalEntry} {f : Bool}
    (h : s.appendToWAL e f = .ok s') :
    s'.store = s.store ∧ s'.cache = s.cache ∧ s'.ttlTable = s.ttlTable ∧
    s'.idx = s.idx ∧ s'.ready = s.ready ∧ s'.walHandle = s.walHandle ∧
    s'.cacheEnabled = s.cacheEnabled ∧ s'.cacheLimit = s.cacheLimit := by
  unfold SehawqDB.appendToWAL at h
  split at h
  · cases h
    exact ⟨rfl, rfl, rfl, rfl, rfl, rfl, rfl, rfl⟩
  · split at h
    · cases h
    · cases h
      exact ⟨rfl, rfl, rfl, rfl, rfl, rfl, rfl, rfl⟩

/-- The store map and cache after `set` (independently of the WAL append
outcomes and the ttl option): the map gains the binding, the cache is
written through when caching is on. -/
theorem set_store_cache (s : SehawqDB) (k : String) (v : JsVal)
    (t : Option Int) (now : Int) (w1 w2 : Bool) (h : s.ready = true) :
    (s.set k v t now w1 w2).2.store = mapSet s.store k v ∧
    (s.set k v t now w1 w2).2.cache =
      (if s.cacheEnabled then updateCache s.cache s.cacheLimit k v
       else s.cache) := by
  unfold SehawqDB.set
  simp only [h, Bool.not_true]
  by_cases hc : s.cacheEnabled
  all_goals simp only [hc, if_true, if_false, Bool.false_eq_true,
    ite_true, ite_false]
  all_goals cases hw : SehawqDB.appendToWAL _ (.put k v) w1 with
  | error e => simp [hw]
  | ok s3 =>
    obtain ⟨h1, h2, _, _, _, _, _, _⟩ := appendToWAL_ok_fields hw
    cases t with
    | none => simp [hw, h1, h2]
    | some tv =>
      by_cases ht : tv ≠ 0
      · simp only [hw, ht]
        cases hw2 : SehawqDB.appendToWAL _ (.ttl k (now + tv * 1000)) w2 with
        | error e2 => simp [hw2, h1, h2, ht]
        | ok s5 =>
          obtain ⟨g1, g2, _, _, _, _, _, _⟩ := appendToWAL_ok_fields hw2
          simp [hw2, g1, g2, h1, h2, ht]
      · simp only [ne_eq, not_not] at ht
        simp [hw, ht, h1, h2]

/-- `set` without a ttl option leaves the TTL table exactly as it was:
contrary to the spec sentence, no existing TTL entry is removed. -/
theorem set_none_ttlTable (s : SehawqDB) (k : String) (v : JsVal)
    (now : Int) (w1 w2 : Bool) :
    (s.set k v none now w1 w2).2.ttlTable = s.ttlTable := by
  unfold SehawqDB.set
  by_cases h : s.ready
  · simp only [h, Bool.not_true]
    by_cases hc : s.cacheEnabled
    all_goals simp only [hc, if_true, if_false, Bool.false_eq_true,
      ite_true, ite_false]
    all_goals cases hw : SehawqDB.appendToWAL _ (.put k v) w1 with
    | error e => simp [hw]
    | ok s3 =>
      obtain ⟨_, _, h3, _, _, _, _, _⟩ := appendToWAL_ok_fields hw
      simp [hw, h3]
  · simp only [Bool.not_eq_true] at h
    simp [h]

theorem set_notReady (s : SehawqDB) (k : String) (v : JsVal) (t : Option Int)
    (now : Int) (w1 w2 : Bool) (h : s.ready = false) :
    s.set k v t now w1 w2 = (.error .notReady, s) := by
  unfold SehawqDB.set
  simp [h]

theorem set_cacheEnabled (s : SehawqDB) (k : String) (v : JsVal)
    (t : Option Int) (now : Int) (w1 w2 : Bool) :
    (s.set k v t now w1 w2).2.cacheEnabled = s.cacheEnabled := by
  unfold SehawqDB.set
  by_cases h : s.ready
  · simp only [h, Bool.not_true]
    by_cases hc : s.cacheEnabled
    all_goals simp only [hc, if_true, if_false, Bool.false_eq_true,
      ite_true, ite_false]
    all_goals cases hw : SehawqDB.appendToWAL _ (.put k v) w1 with
    | error e => simp [hw]
    | ok s3 =>
      obtain ⟨_, _, _, _, _, _, h7, _⟩ := appendToWAL_ok_fields hw
      cases t with
      | none => simp [hw, h7, hc]
      | some tv =>
        by_cases ht : tv ≠ 0
        · simp only [hw, ht]
          cases hw2 : SehawqDB.appendToWAL _ (.ttl k (now + tv * 1000)) w2 with
          | error e2 => simp [hw2, ht, h7, hc]
          | ok s5 =>
            obtain ⟨_, _, _, _, _, _, g7, _⟩ := appendToWAL_ok_fields hw2
            simp [hw2, ht, g7, h7, hc]
        · simp only [ne_eq, not_not] at ht
          simp [hw, ht, h7, hc]
  · simp only [Bool.not_eq_true] at h
    simp [h]

theorem delete_absent (s : SehawqDB) (k : String) (wf : Bool)
    (h : mapHas s.store k = false) :
    s.delete k wf = (.ok false, s) := by
  unfold SehawqDB.delete
  simp [h]

theorem delete_present_fields (s : SehawqDB) (k : String) (wf : Bool)
    (h : mapHas s.store k = true) :
    (s.delete k wf).2.store = mapDelete s.store k ∧
    (s.delete k wf).2.cache = mapDelete s.cache k ∧
    (s.delete k wf).2.ttlTable = mapDelete s.ttlTable k ∧
    (s.delete k wf).2.cacheEnabled = s.cacheEnabled := by
  unfold SehawqDB.delete
  simp only [h, Bool.not_true, Bool.false_eq_true, if_false]
  cases hw : SehawqDB.appendToWAL _ (.del k) wf with
  | error e => simp [hw]
  | ok s2 =>
    obtain ⟨h1, h2, h3, _, _, _, h7, _⟩ := appendToWAL_ok_fields hw
    simp [hw, h1, h2, h3, h7]

theorem delete_fields (s : SehawqDB) (k : String) (wf : Bool) :
    ((s.delete k wf).2.store = mapDelete s.store k ∧
     (s.delete k wf).2.cache = mapDelete s.cache k ∧
     (s.delete k wf).2.cacheEnabled = s.cacheEnabled) ∨
    (s.delete k wf).2 = s := by
  by_cases h : mapHas s.store k
  · obtain ⟨h1, h2, _, h4⟩ := delete_present_fields s k wf h
    exact Or.inl ⟨h1, h2, h4⟩
  · simp only [Bool.not_eq_true] at h
    rw [delete_absent s k wf h]
    exact Or.inr rfl

theorem clear_fields (s : SehawqDB) (wf : Bool) :
    (s.clear wf).2.store = [] ∧ (s.clear wf).2.cache = [] ∧
    (s.clear wf).2.idx = [] ∧ (s.clear wf).2.ttlTable = s.ttlTable ∧
    (s.clear wf).2.cacheEnabled = s.cacheEnabled := by
  unfold SehawqDB.clear
  dsimp only
  split
  · simp
  · next s2 hw =>
    obtain ⟨h1, h2, h3, h4, _, _, h7, _⟩ := appendToWAL_ok_fields hw
    simp [h1, h2, h3, h4, h7]

theorem clear_ok (s : SehawqDB) (h1 : s.walHandle = true) :
    (s.clear false).1 = .ok () ∧ (s.clear false).2.wal = s.wal ++ [.clr] := by
  unfold SehawqDB.clear SehawqDB.appendToWAL
  simp [h1]

theorem get_hit (s : SehawqDB) (k : String) (hr : s.ready = true)
    (hc : s.cacheEnabled = true) (hh : mapHas s.cache k = true) :
    s.get k = (.ok (mapGet s.cache k), s) := by
  unfold SehawqDB.get
  simp [hr, hc, hh]

theorem get_state_cases (s : SehawqDB) (k : String) :
    (s.get k).2 = s ∨
    (s.cacheEnabled = true ∧ ∃ v, mapGet s.store k = some v ∧
      (s.get k).2 = { s with cache := updateCache s.cache s.cacheLimit k v }) := by
  unfold SehawqDB.get
  by_cases hr : s.ready
  · simp only [hr, Bool.not_true, Bool.false_eq_true, if_false]
    by_cases hc : (s.cacheEnabled && mapHas s.cache k) = true
    · simp [hc]
    · simp only [Bool.not_eq_true] at hc
      simp only [hc, Bool.false_eq_true, if_false]
      cases hm : mapGet s.store k with
      | none => simp [hm]
      | some v =>
        by_cases hce : s.cacheEnabled
        · exact Or.inr ⟨hce, v, rfl, by simp [hce]⟩
        · simp only [Bool.not_eq_true] at hce
          simp [hce]
  · simp only [Bool.not_eq_true] at hr
    simp [hr]

theorem mapGet_evictHead {cache : List (String × JsVal)} {k' : String}
    {v' : JsVal} (h : mapGet (evictHead cache) k' = some v') :
    mapGet cache k' = some v' := by
  cases cache with
  | nil => exact h
  | cons hd tl =>
    obtain ⟨k0, v0⟩ := hd
    simp only [evictHead] at h
    rw [mapGet_mapDelete] at h
    by_cases h0 : k0 = k'
    · rw [if_pos h0] at h; cases h
    · rwa [if_neg h0] at h

theorem mapGet_updateCache {cache : List (String × JsVal)} {limit : Nat}
    {k k' : String} {v v' : JsVal}
    (h : mapGet (updateCache cache limit k v) k' = some v') :
    (k' = k ∧ v' = v) ∨ (k' ≠ k ∧ mapGet cache k' = some v') := by
  unfold updateCache at h
  rw [mapGet_mapSet] at h
  by_cases hk : k = k'
  · rw [if_pos hk] at h
    exact Or.inl ⟨hk.symm, (Option.some.injEq _ _ ▸ h).symm⟩
  · rw [if_neg hk] at h
    refine Or.inr ⟨fun hh => hk hh.symm, ?_⟩
    by_cases hl : limit ≤ cache.length
    · rw [if_pos hl] at h
      exact mapGet_evictHead h
    · rwa [if_neg hl] at h

theorem appendToWAL_false_no_error {s : SehawqDB} {e : WalEntry} {err : DBErr}
    (h : s.appendToWAL e false = .error err) : False := by
  unfold SehawqDB.appendToWAL at h
  split at h
  · cases h
  · simp at h

theorem set_some_ttlTable (s : SehawqDB) (k : String) (v : JsVal)
    (t now : Int) (w2 : Bool) (hr : s.ready = true) (ht : t ≠ 0) :
    ((s.set k v (some t) now false w2).2).ttlTable =
      mapSet s.ttlTable k (now + t * 1000) := by
  unfold SehawqDB.set
  simp only [hr, Bool.not_true]
  by_cases hc : s.cacheEnabled
  all_goals simp only [hc, if_true, if_false, Bool.false_eq_true,
    ite_true, ite_false]
  all_goals cases hw : SehawqDB.appendToWAL _ (.put k v) false with
  | error e => exact (appendToWAL_false_no_error hw).elim
  | ok s3 =>
    obtain ⟨_, _, h3, _, _, _, _, _⟩ := appendToWAL_ok_fields hw
    simp only [hw, ht, bne_iff_ne, ne_eq, not_false_eq_true, ite_true,
      if_true]
    cases hw2 : SehawqDB.appendToWAL _ (.ttl k (now + t * 1000)) w2 with
    | error e2 => simp [hw2, h3]
    | ok s5 =>
      obtain ⟨_, _, g3, _, _, _, _, _⟩ := appendToWAL_ok_fields hw2
      simp [hw2, g3, h3]

theorem set_zero_ttlTable (s : SehawqDB) (k : String) (v : JsVal)
    (now : Int) (w1 w2 : Bool) (hr : s.ready = true) :
    ((s.set k v (some 0) now w1 w2).2).ttlTable = s.ttlTable := by
  unfold SehawqDB.set
  simp only [hr, Bool.not_true]
  by_cases hc : s.cacheEnabled
  all_goals simp only [hc, if_true, if_false, Bool.false_eq_true,
    ite_true, ite_false]
  all_goals cases hw : SehawqDB.appendToWAL _ (.put k v) w1 with
  | error e => simp [hw]
  | ok s3 =>
    obtain ⟨_, _, h3, _, _, _, _, _⟩ := appendToWAL_ok_fields hw
    simp [hw, h3]

theorem delete_store_self (s : SehawqDB) (k : String) (wf : Bool) :
    mapGet (s.delete k wf).2.store k = none := by
  by_cases h : mapHas s.store k
  · obtain ⟨h1, _, _, _⟩ := delete_present_fields s k wf h
    rw [h1, mapGet_mapDelete, if_pos rfl]
  · simp only [Bool.not_eq_true] at h
    rw [delete_absent s k wf h]
    cases hm : mapGet s.store k with
    | none => rfl
    | some v => rw [mapHas, hm] at h; cases h

theorem delete_store_preserves_none (s : SehawqDB) (k k' : String) (wf : Bool)
    (h : mapGet s.store k = none) :
    mapGet (s.delete k' wf).2.store k = none := by
  rcases delete_fields s k' wf with ⟨h1, _, _⟩ | h1
  · rw [h1, mapGet_mapDelete]
    by_cases hk : k' = k
    · rw [if_pos hk]
    · rw [if_neg hk]; exact h
  · rw [h1]; exact h

theorem sweepStep_store_none (now : Int) (wf : Bool) (s : SehawqDB)
    (e : String × Int) (k : String) (h : mapGet s.store k = none) :
    mapGet (sweepStep now wf s e).store k = none := by
  unfold sweepStep
  by_cases hge : now ≥ e.2
  · rw [if_pos hge]
    exact delete_store_preserves_none _ k e.1 wf h
  · rw [if_neg hge]; exact h

theorem sweepFold_store_none (now : Int) (wf : Bool)
    (l : List (String × Int)) (s : SehawqDB) (k : String)
    (h : mapGet s.store k = none) :
    mapGet (l.foldl (sweepStep now wf) s).store k = none := by
  induction l generalizing s with
  | nil => exact h
  | cons hd tl ih =>
    rw [List.foldl_cons]
    exact ih _ (sweepStep_store_none now wf s hd k h)

theorem sweepFold_deletes (now : Int) (wf : Bool)
    {l : List (String × Int)} (s : SehawqDB) {k : String} {exp : Int}
    (hmem : (k, exp) ∈ l) (hexp : now ≥ exp) :
    mapGet (l.foldl (sweepStep now wf) s).store k = none := by
  induction l generalizing s with
  | nil => cases hmem
  | cons hd tl ih =>
    rw [List.foldl_cons]
    rcases List.mem_cons.mp hmem with heq | hmem'
    · subst heq
      refine sweepFold_store_none now wf tl _ k ?_
      unfold sweepStep
      rw [if_pos hexp]
      exact delete_store_self _ k wf
    · exact ih _ hmem'

/-- C1 (amended): a WAL append failure during `set` or `delete` is surfaced
to the caller as a durability error and no WAL record is written, but the
in-memory store map was already mutated before the append and is not rolled
back — the source updates memory first, then appends. -/
theorem C1_wal_failure_error_but_memory_mutated (s : SehawqDB) (k : String)
    (v : JsVal) (now : Int) (hr : s.ready = true) (hw : s.walHandle = true) :
    ((s.set k v none now true false).1 = .error .durability ∧
     (s.set k v none now true false).2.store = mapSet s.store k v ∧
     (s.set k v none now true false).2.wal = s.wal) ∧
    (mapHas s.store k = true →
     (s.delete k true).1 = .error .durability ∧
     (s.delete k true).2.store = mapDelete s.store k ∧
     (s.delete k true).2.wal = s.wal) := by
  constructor
  · unfold SehawqDB.set SehawqDB.appendToWAL
    by_cases hc : s.cacheEnabled
    all_goals simp [hr, hw, hc]
  · intro hk
    unfold SehawqDB.delete SehawqDB.appendToWAL
    simp [hk, hw]

/-- C1 counterexample to the claim as stated: on a fresh ready engine whose
WAL write rejects, `set("a", 1)` rejects with the durability error and yet
the in-memory store map now contains the binding — the claim's "the
in-memory state is unchanged" is false. -/
theorem C1_counterexample :
    (SehawqDB.freshReady.set ("a") (.num 1) none 0 true false).1 =
      .error .durability ∧
    mapGet (SehawqDB.freshReady.set ("a") (.num 1) none 0 true
      false).2.store ("a") = some (.num 1) :=
  ⟨rfl, rfl⟩

/-- Witness for C1: the amended theorem applied to a concrete ready state
holding the key `k`. -/
theorem C1_witness :
    ((exC5.set ("k") (.num 2) none 0 true false).1 = .error .durability ∧
     (exC5.set ("k") (.num 2) none 0 true false).2.store =
       mapSet exC5.store ("k") (.num 2) ∧
     (exC5.set ("k") (.num 2) none 0 true false).2.wal = exC5.wal) ∧
    ((exC5.delete ("k") true).1 = .error .durability ∧
     (exC5.delete ("k") true).2.store = mapDelete exC5.store ("k") ∧
     (exC5.delete ("k") true).2.wal = exC5.wal) := by
  have h := C1_wal_failure_error_but_memory_mutated exC5 ("k") (.num 2) 0
    rfl rfl
  exact ⟨h.1, h.2 rfl⟩

/-- C5 (amended): a `set` call without a ttl option leaves the TTL table
exactly as it was — an existing TTL entry for the key is not removed, so the
key remains subject to the expiry sweep. -/
theorem C5_set_without_ttl_keeps_ttl_entry (s : SehawqDB) (k : String)
    (v : JsVal) (now : Int) (w1 w2 : Bool) :
    ((s.set k v none now w1 w2).2).ttlTable = s.ttlTable :=
  set_none_ttlTable s k v now w1 w2

/-- C5 counterexample to the claim as stated: on a ready engine where `k`
has TTL entry 99, `set("k", 2)` without a ttl leaves the entry in place —
the claim's "removes the TTL entry for k" is false. -/
theorem C5_counterexample :
    mapGet ((exC5.set ("k") (.num 2) none 0 false false).2).ttlTable ("k") =
      some 99 := rfl

/-- C6 (amended): `clear` resets the store map, the cache and the index map
to empty and (with an open WAL handle and a successful write) appends a
`clr` record, but it leaves the TTL table unchanged — the source clears
`_idx`, not `_ttl`. -/
theorem C6_clear_resets_store_cache_idx_not_ttl (s : SehawqDB) (wf : Bool) :
    ((s.clear wf).2.store = [] ∧ (s.clear wf).2.cache = [] ∧
     (s.clear wf).2.idx = [] ∧ (s.clear wf).2.ttlTable = s.ttlTable) ∧
    (s.walHandle = true → wf = false →
      (s.clear wf).1 = .ok () ∧ (s.clear wf).2.wal = s.wal ++ [.clr]) := by
  constructor
  · obtain ⟨h1, h2, h3, h4, _⟩ := clear_fields s wf
    exact ⟨h1, h2, h3, h4⟩
  · intro h1 h2
    subst h2
    exact clear_ok s h1

/-- C6 counterexample to the claim as stated: after `clear()` on a state
whose TTL table holds `k ↦ 5`, the TTL table still holds that entry — the
claim's "resets the TTL table to empty" is false. -/
theorem C6_counterexample :
    mapGet ((exC6.clear false).2).ttlTable ("k") = some 5 := rfl

/-- Witness for C6: the amended theorem applied to the concrete state
`exC6`. -/
theorem C6_witness :
    (((exC6.clear false).2.store = [] ∧ (exC6.clear false).2.cache = [] ∧
      (exC6.clear false).2.idx = [] ∧
      (exC6.clear false).2.ttlTable = exC6.ttlTable) ∧
     ((exC6.clear false).1 = .ok () ∧
      (exC6.clear false).2.wal = exC6.wal ++ [.clr])) := by
  have h := C6_clear_resets_store_cache_idx_not_ttl exC6 false
  exact ⟨h.1, h.2 rfl rfl⟩

/-- C7 (amended): the cache is not LRU.  A cache hit in `get` returns the
cached value without promoting the entry (the state is returned unchanged),
and when `updateCache` runs with the cache at capacity the evicted entry is
the head of the insertion order — the first-inserted key — independently of
reads. -/
theorem C7_cache_fifo_not_lru :
    (∀ (s : SehawqDB) (k : String), s.ready = true → s.cacheEnabled = true →
      mapHas s.cache k = true → s.get k = (.ok (mapGet s.cache k), s)) ∧
    (∀ (cache rest : List (String × JsVal)) (limit : Nat) (k hk : String)
      (v hv : JsVal), cache = (hk, hv) :: rest → limit ≤ cache.length →
      updateCache cache limit k v = mapSet (mapDelete cache hk) k v) := by
  constructor
  · exact fun s k hr hc hh => get_hit s k hr hc hh
  · intro cache rest limit k hk v hv hc hl
    subst hc
    unfold updateCache evictHead
    rw [if_pos hl]

/-- C7 counterexample to the claim as stated: with cache capacity 2, after
`set a; set b; get a; set c` the key `a` — which was read (used) more
recently than `b` — is the evicted entry, while `b` survives.  Under LRU
with reads counting as uses, `b` would have been evicted. -/
theorem C7_counterexample :
    mapGet exC7.cache ("a") = none ∧
    mapGet exC7.cache ("b") = some (.num 2) ∧
    mapGet exC7.cache ("c") = some (.num 3) :=
  ⟨rfl, rfl, rfl⟩

/-- Witness for C7: both parts of the amended theorem applied to concrete
inputs. -/
theorem C7_witness :
    exC5.get ("k") = (.ok (mapGet exC5.cache ("k")), exC5) ∧
    updateCache [(("a"), JsVal.num 1), (("b"), JsVal.num 2)] 2 ("c")
        (.num 3) =
      mapSet (mapDelete [(("a"), JsVal.num 1), (("b"), JsVal.num 2)] ("a"))
        ("c") (.num 3) :=
  ⟨C7_cache_fifo_not_lru.1 exC5 ("k") rfl rfl rfl,
   C7_cache_fifo_not_lru.2 [(("a"), JsVal.num 1), (("b"), JsVal.num 2)]
     [(("b"), JsVal.num 2)] 2 ("c") ("a") (.num 3) (.num 1) rfl
     (by decide)⟩

/-- C8 (amended): for a strictly negative ttl `T`, `set(k, v, ttl := T)`
writes a TTL entry whose expiry `now + T*1000` already lies in the past, and
any later sweep deletes `k` from the store.  For `T = 0` the ttl option is
falsy and ignored: no TTL entry is created, so the key never becomes
eligible for the sweep. -/
theorem C8_negative_ttl_swept_zero_ttl_ignored (s : SehawqDB) (k : String)
    (v : JsVal) (now nowS T : Int) (w2 wfd : Bool) (hr : s.ready = true)
    (hT : T < 0) (hn : now ≤ nowS) :
    (mapGet ((s.set k v (some T) now false w2).2).ttlTable k =
        some (now + T * 1000) ∧
     now + T * 1000 < now ∧
     mapGet (((s.set k v (some T) now false w2).2).ttlSweep nowS
       wfd).store k = none) ∧
    ((s.set k v (some 0) now false w2).2).ttlTable = s.ttlTable := by
  have hT0 : T ≠ 0 := by omega
  have httl := set_some_ttlTable s k v T now w2 hr hT0
  have hneg : now + T * 1000 < now := by
    have : T * 1000 < 0 := by
      have h1000 : (0 : Int) < 1000 := by norm_num
      exact mul_neg_of_neg_of_pos hT h1000
    omega
  refine ⟨⟨?_, hneg, ?_⟩, set_zero_ttlTable s k v now false w2 hr⟩
  · rw [httl, mapGet_mapSet, if_pos rfl]
  · have hmem : (k, now + T * 1000) ∈
        ((s.set k v (some T) now false w2).2).ttlTable := by
      rw [httl]
      exact mem_mapSet_self _ _ _
    exact sweepFold_deletes nowS wfd _ hmem (by omega)

/-- C8 counterexample to the claim as stated: `set("k", 1, ttl := 0)` on a
fresh ready engine creates no TTL entry at all, and a later sweep leaves the
key in the store — a zero ttl does not make the key eligible for deletion. -/
theorem C8_counterexample :
    ((SehawqDB.freshReady.set ("k") (.num 1) (some 0) 5 false
      false).2).ttlTable = [] ∧
    mapGet (((SehawqDB.freshReady.set ("k") (.num 1) (some 0) 5 false
      false).2).ttlSweep 999999 false).store ("k") = some (.num 1) :=
  ⟨rfl, rfl⟩

/-- Witness for C8: the amended theorem applied at `T = -1` on the fresh
ready engine. -/
theorem C8_witness :
    (mapGet ((SehawqDB.freshReady.set ("k") (.num 1) (some (-1)) 100 false
        false).2).ttlTable ("k") = some (100 + (-1) * 1000) ∧
     (100 : Int) + (-1) * 1000 < 100 ∧
     mapGet (((SehawqDB.freshReady.set ("k") (.num 1) (some (-1)) 100 false
       false).2).ttlSweep 200 false).store ("k") = none) ∧
    ((SehawqDB.freshReady.set ("k") (.num 1) (some 0) 100 false
      false).2).ttlTable = SehawqDB.freshReady.ttlTable :=
  C8_negative_ttl_swept_zero_ttl_ignored SehawqDB.freshReady ("k") (.num 1)
    100 200 (-1) false false rfl (by decide) (by decide)

/-- C10 (confirmed): on the pre-init engine state, `set` and `get` throw
the not-ready error, while `delete` performs no readiness check: it returns
`false` for every key on the empty pre-init store, leaving the state
untouched. -/
theorem C10_delete_skips_ready_check (k : String) (v : JsVal) (now : Int)
    (w1 w2 wf : Bool) :
    (SehawqDB.preInit.set k v none now w1 w2).1 = .error .notReady ∧
    (SehawqDB.preInit.get k).1 = .error .notReady ∧
    SehawqDB.preInit.delete k wf = (.ok false, SehawqDB.preInit) :=
  ⟨rfl, rfl, rfl⟩

theorem inv_set (s : SehawqDB) (k : String) (v : JsVal) (t : Option Int)
    (now : Int) (w1 w2 : Bool) (hinv : DBInv s) :
    DBInv (s.set k v t now w1 w2).2 := by
  obtain ⟨hok, hde⟩ := hinv
  by_cases hr : s.ready
  · obtain ⟨hst, hca⟩ := set_store_cache s k v t now w1 w2 hr
    have hce := set_cacheEnabled s k v t now w1 w2
    constructor
    · intro k' v' hc'
      rw [hca] at hc'
      rw [hst, mapGet_mapSet]
      by_cases hcen : s.cacheEnabled = true
      · rw [if_pos hcen] at hc'
        rcases mapGet_updateCache hc' with ⟨hk', hv'⟩ | ⟨hk', hget⟩
        · subst hk'; subst hv'
          rw [if_pos rfl]
        · rw [if_neg (fun hh => hk' hh.symm)]
          exact hok _ _ hget
      · simp only [Bool.not_eq_true] at hcen
        rw [if_neg (by rw [hcen]; exact Bool.false_ne_true)] at hc'
        rw [hde hcen] at hc'
        cases hc'
    · intro hdis
      rw [hce] at hdis
      rw [hca, if_neg (by rw [hdis]; exact Bool.false_ne_true)]
      exact hde hdis
  · simp only [Bool.not_eq_true] at hr
    rw [set_notReady s k v t now w1 w2 hr]
    exact ⟨hok, hde⟩

theorem inv_get (s : SehawqDB) (k : String) (hinv : DBInv s) :
    DBInv (s.get k).2 := by
  obtain ⟨hok, hde⟩ := hinv
  rcases get_state_cases s k with h | ⟨hce, v, hv, h⟩
  · rw [h]; exact ⟨hok, hde⟩
  · rw [h]
    constructor
    · intro k' v' hc'
      simp only at hc'
      rcases mapGet_updateCache hc' with ⟨hk', hv'⟩ | ⟨hk', hget⟩
      · subst hk'; subst hv'
        exact hv
      · exact hok _ _ hget
    · intro hdis
      simp only at hdis
      rw [hce] at hdis
      cases hdis

theorem inv_delete (s : SehawqDB) (k : String) (wf : Bool) (hinv : DBInv s) :
    DBInv (s.delete k wf).2 := by
  obtain ⟨hok, hde⟩ := hinv
  rcases delete_fields s k wf with ⟨h1, h2, h4⟩ | h
  · constructor
    · intro k' v' hc'
      rw [h2, mapGet_mapDelete] at hc'
      rw [h1, mapGet_mapDelete]
      by_cases hk : k = k'
      · rw [if_pos hk] at hc'
        cases hc'
      · rw [if_neg hk] at hc'
        rw [if_neg hk]
        exact hok _ _ hc'
    · intro hdis
      rw [h4] at hdis
      rw [h2, hde hdis]
      rfl
  · rw [h]; exact ⟨hok, hde⟩

theorem inv_clear (s : SehawqDB) (wf : Bool) (_hinv : DBInv s) :
    DBInv (s.clear wf).2 := by
  obtain ⟨h1, h2, _, _, _⟩ := clear_fields s wf
  constructor
  · intro k' v' hc'
    rw [h2] at hc'
    cases hc'
  · intro _
    exact h2

theorem inv_sweepStep (now : Int) (wf : Bool) (s : SehawqDB)
    (e : String × Int) (hinv : DBInv s) :
    DBInv (sweepStep now wf s e) := by
  unfold sweepStep
  by_cases hge : now ≥ e.2
  · rw [if_pos hge]
    exact inv_delete _ e.1 wf ⟨hinv.1, hinv.2⟩
  · rw [if_neg hge]
    exact hinv

theorem inv_sweepFold (now : Int) (wf : Bool) (l : List (String × Int))
    (s : SehawqDB) (hinv : DBInv s) :
    DBInv (l.foldl (sweepStep now wf) s) := by
  induction l generalizing s with
  | nil => exact hinv
  | cons hd tl ih =>
    rw [List.foldl_cons]
    exact ih _ (inv_sweepStep now wf s hd hinv)

theorem inv_applyDBOp (s : SehawqDB) (op : DBOp) (hinv : DBInv s) :
    DBInv (s.applyDBOp op) := by
  cases op with
  | setOp k v t now w1 w2 => exact inv_set s k v t now w1 w2 hinv
  | getOp k => exact inv_get s k hinv
  | delOp k w => exact inv_delete s k w hinv
  | clearOp w => exact inv_clear s w hinv
  | sweepOp now w => exact inv_sweepFold now w s.ttlTable s hinv

theorem inv_applyDBOps (s : SehawqDB) (ops : List DBOp) (hinv : DBInv s) :
    DBInv (s.applyDBOps ops) := by
  induction ops generalizing s with
  | nil => exact hinv
  | cons op rest ih =>
    exact ih _ (inv_applyDBOp s op hinv)

/-- C2 (confirmed): cache coherence is an invariant of the engine.  From any
coherent state (with the operational side condition that a disabled cache is
empty — true of every reachable state, since nothing writes the cache when
`conf.cache` is off), any sequence of `set`/`get`/`delete`/`clear`/TTL-sweep
operations — including the cache evictions they perform — leaves every
cached key bound in the store map to the identical value. -/
theorem C2_cache_coherence (s : SehawqDB) (ops : List DBOp)
    (h1 : CacheOK s) (h2 : s.cacheEnabled = false → s.cache = []) :
    CacheOK (s.applyDBOps ops) :=
  (inv_applyDBOps s ops ⟨h1, h2⟩).1

/-- Witness for C2: the coherence theorem applied to the fresh ready engine
and a concrete mixed operation sequence (writes, a ttl write, a read, a
failing write, a delete, a sweep, a clear, a final write). -/
theorem C2_witness : CacheOK (SehawqDB.freshReady.applyDBOps exC2ops) :=
  C2_cache_coherence SehawqDB.freshReady exC2ops
    (fun _ _ h => Option.noConfusion h) (fun _ => rfl)

/-- C3 (amended): for `insert`, validation runs before id generation and
before any store write, and a failure aborts with the validation error
leaving the collection and engine state exactly unchanged.  For `update`,
the changes are merged into the stored document object in place BEFORE
validation runs, so a failure aborts with the validation error and without
any `db.set`/WAL write, but the mutated document remains visible in the
store map. -/
theorem C3_validation_insert_clean_update_dirty :
    (∀ (c : CollectionDB) (doc : List (String × JsVal)) (wf : Bool)
      (rules : List (String × CollRule)) (e : ValErr),
      c.rules = some rules → validateDoc rules doc = some e →
      c.insert doc wf = (.error (.validation e), c)) ∧
    (∀ (c : CollectionDB) (query changes : List (String × JsVal))
      (wf : Bool) (k : String) (docFields : List (String × JsVal))
      (rules : List (String × CollRule)) (e : ValErr),
      firstMatch (c.name ++ (":")) query c.db.store =
        some (k, .obj docFields) →
      c.rules = some rules →
      validateDoc rules (objAssign docFields (updatePayload changes)) =
        some e →
      c.update query changes wf =
        (.error (.validation e),
         { c with db := (c.db.aliasWrite k
             (.obj (objAssign docFields (updatePayload changes)))) })) := by
  constructor
  · intro c doc wf rules e hr hv
    unfold CollectionDB.insert
    simp only [hr, hv]
  · intro c query changes wf k docFields rules e hfind hr hv
    unfold CollectionDB.update
    simp only [hfind, hr, hv]

/-- C3 counterexample to the claim as stated: on `exC3`, an update setting
`name` to the too-short string `"A"` fails validation — and yet the stored
document now carries `name = "A"` (the merge mutated the stored object
before validation); no WAL record was written. -/
theorem C3_counterexample :
    (exC3.update [] [(("name"), .str ("A"))] false).1 =
      .error (.validation (.tooSmall ("name"))) ∧
    mapGet (exC3.update [] [(("name"), .str ("A"))]
      false).2.db.store ("users:0") =
      some (.obj [(("_id"), .str ("users:0")), (("name"), .str ("A"))]) ∧
    (exC3.update [] [(("name"), .str ("A"))] false).2.db.wal = [] :=
  ⟨rfl, rfl, rfl⟩

/-- Witness for C3: both parts of the amended theorem applied to concrete
inputs over `exC3`. -/
theorem C3_witness :
    exC3.insert [(("name"), .str ("A"))] false =
      (.error (.validation (.tooSmall ("name"))), exC3) ∧
    exC3.update [] [(("name"), .str ("A"))] false =
      (.error (.validation (.tooSmall ("name"))),
       { exC3 with db := (exC3.db.aliasWrite ("users:0")
           (.obj (objAssign
             [(("_id"), .str ("users:0")), (("name"), .str ("Ali"))]
             (updatePayload [(("name"), .str ("A"))])))) }) :=
  ⟨C3_validation_insert_clean_update_dirty.1 exC3
     [(("name"), .str ("A"))] false
     [(("name"), { required := true, type := some .string, min := some 2 })]
     (.tooSmall ("name")) rfl rfl,
   C3_validation_insert_clean_update_dirty.2 exC3 [] [(("name"), .str ("A"))]
     false ("users:0")
     [(("_id"), .str ("users:0")), (("name"), .str ("Ali"))]
     [(("name"), { required := true, type := some .string, min := some 2 })]
     (.tooSmall ("name")) rfl rfl rfl⟩

theorem get_miss_none (s : SehawqDB) (k : String) (hr : s.ready = true)
    (hc : mapGet s.cache k = none) (hm : mapGet s.store k = none) :
    s.get k = (.ok none, s) := by
  unfold SehawqDB.get
  simp [hr, mapHas, hc, hm]

theorem set_none_false_ok (s : SehawqDB) (k : String) (v : JsVal)
    (now : Int) (w2 : Bool) (hr : s.ready = true) :
    (s.set k v none now false w2).1 = .ok () := by
  unfold SehawqDB.set
  simp only [hr, Bool.not_true]
  by_cases hc : s.cacheEnabled
  all_goals simp only [hc, if_true, if_false, Bool.false_eq_true,
    ite_true, ite_false]
  all_goals cases hw : SehawqDB.appendToWAL _ (.put k v) false with
  | error e => exact (appendToWAL_false_no_error hw).elim
  | ok s3 => simp [hw]

/-- C4 (amended): keys beginning with `_` are never broadcast by the
primary's fan-out hooks (both the `set` and the `delete` listener skip
them), but `applyOp` performs no such check: an incoming replication `set`
on an underscore key is accepted and applied to the replica's store like any
other key. -/
theorem C4_underscore_not_broadcast_but_applied :
    (∀ (key : String) (value : JsVal) (now : Int) (nid : String),
      jsStartsWith key ("_") = true →
      hookSetEvent key value now nid = none ∧
      hookDeleteEvent key now nid = none) ∧
    (∀ (r : Replication) (key : String) (value : JsVal) (ts now : Int)
      (nid : String),
      r.role = .replica → r.db.ready = true →
      mapGet r.db.cache key = none → mapGet r.db.store key = none →
      (r.applyOp (.set key value ts nid) now false).1 = .ok () ∧
      mapGet (r.applyOp (.set key value ts nid) now
        false).2.db.store key = some value) := by
  constructor
  · intro key value now nid h
    constructor
    · unfold hookSetEvent
      simp [h]
    · unfold hookDeleteEvent
      simp [h]
  · intro r key value ts now nid hrole hready hc hm
    have hget := get_miss_none r.db key hready hc hm
    unfold Replication.applyOp
    simp only [hrole, hget]
    unfold applySetPlain
    cases hset : r.db.set key value none now false false with
    | mk res db2 =>
      have h1 : res = .ok () := by
        have h2 := set_none_false_ok r.db key value now false hready
        rw [hset] at h2
        exact h2
      subst h1
      have h3 : db2.store = mapSet r.db.store key value := by
        have h4 := (set_store_cache r.db key value none now false
          false hready).1
        rw [hset] at h4
        exact h4
      refine ⟨rfl, ?_⟩
      show mapGet db2.store key = some value
      rw [h3, mapGet_mapSet, if_pos rfl]

/-- C4 counterexample to the claim as stated: a replica accepts and applies
`applyOp` on the internal key `_x` — the incoming op is not rejected. -/
theorem C4_counterexample :
    (exC4.applyOp (.set ("_x") (.num 1) 5 ("p")) 100 false).1 = .ok () ∧
    mapGet (exC4.applyOp (.set ("_x") (.num 1) 5 ("p")) 100
      false).2.db.store ("_x") = some (.num 1) :=
  ⟨rfl, rfl⟩

/-- Witness for C4: both parts of the amended theorem applied to the
underscore key `_x` on the concrete replica `exC4`. -/
theorem C4_witness :
    (hookSetEvent ("_x") (.num 1) 5 ("p") = none ∧
     hookDeleteEvent ("_x") 5 ("p") = none) ∧
    ((exC4.applyOp (.set ("_x") (.num 1) 5 ("p")) 100 false).1 = .ok () ∧
     mapGet (exC4.applyOp (.set ("_x") (.num 1) 5 ("p")) 100
       false).2.db.store ("_x") = some (.num 1)) :=
  ⟨C4_underscore_not_broadcast_but_applied.1 ("_x") (.num 1) 5 ("p") rfl,
   C4_underscore_not_broadcast_but_applied.2 exC4 ("_x") (.num 1) 5 100
     ("p") rfl rfl rfl rfl⟩

theorem IndexJs.whereMatch_none (operator : String) (value : JsVal) :
    IndexJs.whereMatch none operator value =
      if operator = ("!=") then true else false := by
  unfold IndexJs.whereMatch
  by_cases h1 : operator = ("=")
  · subst h1; cases value <;> rfl
  · by_cases h2 : operator = ("==")
    · subst h2; cases value <;> rfl
    · by_cases h3 : operator = ("!=")
      · subst h3; cases value <;> rfl
      · by_cases h4 : operator = (">")
        · subst h4; cases value <;> rfl
        · by_cases h5 : operator = ("<")
          · subst h5; cases value <;> rfl
          · by_cases h6 : operator = (">=")
            · subst h6; cases value <;> rfl
            · by_cases h7 : operator = ("<=")
              · subst h7; cases value <;> rfl
              · by_cases h8 : operator = ("in")
                · subst h8; cases value <;> rfl
                · by_cases h9 : operator = ("contains")
                  · subst h9; cases value <;> rfl
                  · by_cases h10 : operator = ("startsWith")
                    · subst h10; cases value <;> rfl
                    · by_cases h11 : operator = ("endsWith")
                      · subst h11; cases value <;> rfl
                      · simp only [if_neg h1, if_neg h2, if_neg h3,
                          if_neg h4, if_neg h5, if_neg h6, if_neg h7,
                          if_neg h8, if_neg h9, if_neg h10, if_neg h11]

/-- C9 (amended): `where(field, operator, value)` on a field that no stored
value defines never raises an error, and for every supported operator
except `!=` — equality, the range comparisons, `in`, and the substring
operators — the result pipeline is empty.  For `!=`, however, `undefined`
differs from the (defined) operand, so EVERY stored entry matches and the
pipeline equals the whole store. -/
theorem C9_where_on_absent_field (data : List (String × JsVal))
    (field operator : String) (value : JsVal)
    (h : (data.all
      (fun kv => (IndexJs.getValueByPath kv.2 field).isNone)) = true) :
    IndexJs.whereResults data field operator value =
      if operator = ("!=") then data else [] := by
  induction data with
  | nil =>
    unfold IndexJs.whereResults
    simp only [List.filter_nil]
    split_ifs <;> rfl
  | cons hd tl ih =>
    simp only [List.all_cons, Bool.and_eq_true] at h
    obtain ⟨hhd, htl⟩ := h
    have hnone : IndexJs.getValueByPath hd.2 field = none :=
      Option.isNone_iff_eq_none.mp hhd
    unfold IndexJs.whereResults at ih ⊢
    rw [List.filter_cons, hnone, IndexJs.whereMatch_none]
    by_cases hop : operator = ("!=")
    · rw [ih htl, hop]
      rfl
    · rw [ih htl]
      simp [hop]

/-- C9 counterexample to the claim as stated: a store whose single document
does not define `f`, queried with the supported operator `!=`, yields the
whole (non-empty) store rather than an empty pipeline. -/
theorem C9_counterexample :
    (IndexJs.exC9data.all
      (fun kv => (IndexJs.getValueByPath kv.2 ("f")).isNone)) = true ∧
    IndexJs.exC9data ≠ [] ∧
    IndexJs.whereResults IndexJs.exC9data ("f") ("!=") (.num 5) =
      IndexJs.exC9data :=
  ⟨rfl, List.cons_ne_nil _ _, rfl⟩

/-- Witness for C9: the amended theorem applied to the concrete store
`exC9data` with operator `=`. -/
theorem C9_witness :
    IndexJs.whereResults IndexJs.exC9data ("f") ("=") (.num 5) =
      (if ("=" : String) = ("!=") then IndexJs.exC9data else []) :=
  C9_where_on_absent_field IndexJs.exC9data ("f") ("=") (.num 5) rfl

end Sehawq
